import Mathlib

/-!
# Verification of the kujira rendering and world-query engine

A shallow embedding, in Lean 4, of the core of `src/main.c` of the kujira
repository: the packed-color blending primitive (`applyColor`), the bitmap
transforms (`scaleBitmap`, `rotateBitmap`), the sparse tile-world model
(`initMap`, `borderCollide`), the ripple pool (`initRipple`,
`animateRipple`), and the scroll compositor (`drawBackground`).

Modelling conventions, in line with the source:
* C `int` values are modelled as `Int` (the program never exceeds 32-bit
  range in the quantities the claims concern); array indices and sizes as
  `Nat`.
* C `float` values are modelled by exact rational arithmetic (`Rat`).
  Single-precision evaluation and the exact model can disagree in general
  (a blend channel can truncate one below the exact value when the two
  rounded products sum to just under an integer, and `(int)(w*scale)` can
  double-round), so every float-valued fact in the theorems below is
  confined to inputs where the IEEE computation is exact and agrees with
  the model: the blend at `alpha(src) ∈ \x7b0, 255\x7d` (the products
  degenerate to `0*x` and `1*x`) or on a zero destination (`alpha/255`
  rounds upward in binary32, so the truncated product agrees with the
  exact integer-division form), the scale transform's pixel identity at
  factor `1.0`, the rotation at angle `0` (where `sinf`/`cosf` return
  exactly `0`/`1` and every blend lands on the zeroed canvas), the ripple
  lifecycle (whose deactivation compares the integer-valued radius, exact
  in binary32, against an integer threshold), and scroll offsets that are
  small whole numbers.  The one general-factor fact kept (the
  scaled dimensions closed form in C9) is the exact-rational reading of
  the source expression and accompanies a claim whose own scope is
  factor `1.0`, where the two coincide.
* A C cast `(int)f` truncates toward zero; it is modelled by `ratTrunc`.
* Pixel buffers (`unsigned int *` plus width/height) are modelled as
  functions from flat index to pixel value; a C write loop that writes
  each destination cell exactly once is modelled by the function computing
  that cell's value directly.
* `rand()` is external (libc); it is modelled by an arbitrary stream
  `Nat → Nat` of return values, consumed left to right.
-/

set_option maxRecDepth 4000

namespace Kujira

/-! ## Constants (the #define block of main.c) -/

def TILESIZE : Nat := 48
def DISPLAY_PW : Nat := 960
def DISPLAY_PH : Nat := 540
def DISPLAY_TW : Nat := DISPLAY_PW / TILESIZE
def DISPLAY_TH : Nat := DISPLAY_PH / TILESIZE
def MAPLENGTH : Nat := 2000
def MAPWIDTH : Int := 2000
def MAPHEIGHT : Int := 2000
def SCROLL_TW : Nat := DISPLAY_TW - 5
def SCROLL_TH : Nat := DISPLAY_TH - 5
def SCROLL_PW : Nat := SCROLL_TW * TILESIZE
def SCROLL_PH : Nat := SCROLL_TH * TILESIZE

/-! ## Truncation toward zero (the C `(int)` cast applied to a float) -/

def ratTrunc (q : ℚ) : ℤ := if 0 ≤ q then ⌊q⌋ else -⌊-q⌋

/-! ## The color blending primitive: `applyColor` (main.c, lines 149-172)

```c
void applyColor(unsigned int src, unsigned int *dest) {
    float a = (src & 0xFF) / 255.0f;
    int r = ((1 - a) * (*dest >> 24 & 0xFF)) + (a * (src >> 24 & 0xFF));
    int g = ((1 - a) * (*dest >> 16 & 0xFF)) + (a * (src >> 16 & 0xFF));
    int b = ((1 - a) * (*dest >> 8 & 0xFF)) + (a * (src >> 8 & 0xFF));
    *dest = r << 24 | g << 16 | b << 8 | (src & 0xFF);
}
```
The function returns the new value of `*dest`.  The `(int)` conversions of
the three nonnegative float expressions truncate (`ratTrunc`).  The model
computes the blend with exact rationals while the program computes it in
binary32; the two truncated results agree on the subdomains the theorems
below quantify over - `alpha(src) ∈ \x7b0, 255\x7d` with any destination
(the products degenerate to `0*x` and `1*x`, exact in any precision), and
a zero destination channel (binary32 rounds `alpha/255` upward, so the
rounded product never falls below an integer crossed by the exact product
and both truncate alike) - but can disagree elsewhere: with a general
nonzero destination the two rounded products can sum to just under an
exact integer blend and truncate one lower (alpha 65 over two equal
channels 255 yields 254 in the program, 255 exactly), so no theorem
states a channel closed form over the full domain.
-/

def applyColor (src dest : ℕ) : ℕ :=
  let a : ℚ := ((src &&& 255 : ℕ) : ℚ) / 255
  let r := ratTrunc ((1 - a) * ((dest >>> 24 &&& 255 : ℕ) : ℚ) + a * ((src >>> 24 &&& 255 : ℕ) : ℚ))
  let g := ratTrunc ((1 - a) * ((dest >>> 16 &&& 255 : ℕ) : ℚ) + a * ((src >>> 16 &&& 255 : ℕ) : ℚ))
  let b := ratTrunc ((1 - a) * ((dest >>> 8 &&& 255 : ℕ) : ℚ) + a * ((src >>> 8 &&& 255 : ℕ) : ℚ))
  r.toNat <<< 24 ||| g.toNat <<< 16 ||| b.toNat <<< 8 ||| (src &&& 255)

/-- The blend the spec describes for 4.1: identical except that every
channel is rounded to the nearest integer rather than truncated.  Stated
from the spec's words for comparison against `applyColor`. -/
def applyColorSpecRound (src dest : ℕ) : ℕ :=
  let a : ℚ := ((src &&& 255 : ℕ) : ℚ) / 255
  let r := round ((1 - a) * ((dest >>> 24 &&& 255 : ℕ) : ℚ) + a * ((src >>> 24 &&& 255 : ℕ) : ℚ))
  let g := round ((1 - a) * ((dest >>> 16 &&& 255 : ℕ) : ℚ) + a * ((src >>> 16 &&& 255 : ℕ) : ℚ))
  let b := round ((1 - a) * ((dest >>> 8 &&& 255 : ℕ) : ℚ) + a * ((src >>> 8 &&& 255 : ℕ) : ℚ))
  r.toNat <<< 24 ||| g.toNat <<< 16 ||| b.toNat <<< 8 ||| (src &&& 255)

/-! ## The ripple pool: `rippleArray`, `initRipple`, `animateRipple`
(main.c, lines 89-98, 352-369, 383-443)

The pool is 5 slots (`Ripple rippleArray[5]`, zero-initialised) plus the
write cursor `rippleIndex`.  A slot's pixel buffer is heap-allocated by
`initRipple` (`calloc`) and released by `animateRipple` when the ripple
expires; the model tracks allocations by numbering them (`nextId`) and
records each `free` event in `freed`.  The pixel contents of the ripple
bitmap and the compositing onto the display buffer do not affect the pool
state and are not part of the lifecycle claims; the model keeps the state
transition of every pool field exactly as the source performs it:
`initRipple` wraps the cursor (`if (rippleIndex > 4) rippleIndex = 0;`),
overwrites the slot without releasing its previous buffer, and increments
the cursor; `animateRipple` skips inactive slots, grows `radius` by 1.0,
fades `alpha` by 0.03, and when `radius >= (width - 5) / 2` (integer
division) clears `active` and frees the buffer.
-/

structure RippleR where
  bitmapId : Option Nat
  width : Nat
  height : Nat
  radius : ℚ
  alpha : ℚ
  tileX : Int
  tileY : Int
  active : Bool
deriving DecidableEq

structure RippleSys where
  slots : List RippleR
  rippleIndex : Nat
  nextId : Nat
  freed : List Nat
deriving DecidableEq

def emptyRipple : RippleR := ⟨none, 0, 0, 0, 0, 0, 0, false⟩

def emptyRippleSys : RippleSys := ⟨List.replicate 5 emptyRipple, 0, 0, []⟩

def initRipple (x y : Int) (st : RippleSys) : RippleSys :=
  let idx := if st.rippleIndex > 4 then 0 else st.rippleIndex
  let r : RippleR :=
    { bitmapId := some st.nextId, width := 100, height := 100,
      radius := 20, alpha := 1, tileX := x, tileY := y, active := true }
  { slots := st.slots.set idx r, rippleIndex := idx + 1,
    nextId := st.nextId + 1, freed := st.freed }

/-- One slot's state transition in `animateRipple`, returning the updated
slot and the list of `free` events it emits. -/
def animateRippleSlot (r : RippleR) : RippleR × List Nat :=
  if r.active then
    let radius := r.radius + 1
    let alpha := r.alpha - 3 / 100
    if radius ≥ (((r.width - 5) / 2 : Nat) : ℚ) then
      ({ r with radius := radius, alpha := alpha, active := false },
        match r.bitmapId with
        | some i => [i]
        | none => [])
    else
      ({ r with radius := radius, alpha := alpha }, [])
  else (r, [])

def animateRipple (st : RippleSys) : RippleSys :=
  { slots := st.slots.map (fun r => (animateRippleSlot r).1),
    rippleIndex := st.rippleIndex, nextId := st.nextId,
    freed := st.freed ++ (st.slots.map (fun r => (animateRippleSlot r).2)).flatten }

def iterAnimate : Nat → RippleSys → RippleSys
  | 0, st => st
  | n + 1, st => animateRipple (iterAnimate n st)

/-- Closed form of slot 0 after a spawn at `(x,y)` followed by `n`
animation frames. -/
def c2slot0 (x y : Int) (n : Nat) : RippleR :=
  { bitmapId := some 0, width := 100, height := 100,
    radius := 20 + (min n 27 : ℕ), alpha := 1 - 3 / 100 * ((min n 27 : ℕ) : ℚ),
    tileX := x, tileY := y, active := decide (n < 27) }

/-- Closed form of the whole pool after a spawn at `(x,y)` followed by `n`
animation frames. -/
def c2state (x y : Int) (n : Nat) : RippleSys :=
  { slots := c2slot0 x y n :: List.replicate 4 emptyRipple,
    rippleIndex := 1, nextId := 1,
    freed := if n < 27 then [] else [0] }

/-- Six consecutive spawns starting from the empty pool. -/
def c7pool : RippleSys :=
  initRipple 5 5 (initRipple 4 4 (initRipple 3 3 (initRipple 2 2
    (initRipple 1 1 (initRipple 0 0 emptyRippleSys)))))


/-! ## Bitmaps and the transform library (main.c, lines 83-87, 224-302)

A `Bitmap` is a width, a height, and a row-major pixel array, modelled as
a function from flat index to packed 32-bit pixel value.  The transform
loops write every destination cell exactly once (`calloc` zero-fills the
rest), so the model computes each cell directly from its flat index
(`y = i / width`, `x = i % width`, matching the loops' `dest` pointer
arithmetic).
-/

structure Bitmap where
  width : Nat
  height : Nat
  data : Nat → Nat

/-- `scaleBitmap` (main.c, lines 277-302): nearest-neighbour resampling.
`wScaled`, `hScaled`, `wRatio`, `hRatio` are the four floats of the
source; the `(int)` casts are `ratTrunc` (followed by `toNat`, faithful
for the nonnegative values every claim concerns). -/
def scaleBitmap (bm : Bitmap) (scale : ℚ) : Bitmap :=
  let wScaled : ℚ := (bm.width : ℚ) * scale
  let hScaled : ℚ := (bm.height : ℚ) * scale
  let wRatio : ℚ := (bm.width : ℚ) / wScaled
  let hRatio : ℚ := (bm.height : ℚ) / hScaled
  let w : Nat := (ratTrunc wScaled).toNat
  let h : Nat := (ratTrunc hScaled).toNat
  { width := w, height := h,
    data := fun i =>
      if i < w * h then
        let y := i / w
        let x := i % w
        bm.data ((ratTrunc ((y : ℚ) * hRatio)).toNat * bm.width
          + (ratTrunc ((x : ℚ) * wRatio)).toNat)
      else 0 }

/-- `rotateBitmap` (main.c, lines 224-275): inverse rotation about the
bitmap's centre with bilinear resampling, blended onto the zero-filled
destination through `applyColor`.  The source computes
`angleSin = sin(angle)` and `angleCos = cos(angle)` with libm; the model
takes those two values as parameters (the claims concern `angle = 0`,
where `sinf`/`cosf` return exactly `0.0` and `1.0`).  Note the source's
`cx`/`cy` are `w / 2`, `h / 2` in integer division, and the `rx` formula
reuses `cx` where `cy` would be expected - both kept as written. -/
def rotateBitmap (bm : Bitmap) (angleSin angleCos : ℚ) : Bitmap :=
  let w := bm.width
  let h := bm.height
  let cx : ℚ := ((w / 2 : Nat) : ℚ)
  let cy : ℚ := ((h / 2 : Nat) : ℚ)
  { width := w, height := h,
    data := fun i =>
      if i < w * h then
        let y := i / w
        let x := i % w
        let rx : ℚ := (((x : ℚ) - cx) * angleCos - ((y : ℚ) - cx) * angleSin) + cx
        let ry : ℚ := (((x : ℚ) - cx) * angleSin + ((y : ℚ) - cy) * angleCos) + cy
        if rx < 0 ∨ ry < 0 ∨ rx ≥ (w : ℚ) - 1 ∨ ry ≥ (h : ℚ) - 1 then 0
        else
          let tl := bm.data (⌊ry⌋.toNat * w + ⌊rx⌋.toNat)
          let tr := bm.data (⌊ry⌋.toNat * w + ⌈rx⌉.toNat)
          let bl := bm.data (⌈ry⌉.toNat * w + ⌊rx⌋.toNat)
          let br := bm.data (⌈ry⌉.toNat * w + ⌈rx⌉.toNat)
          let dx : ℚ := rx - (⌊rx⌋ : ℚ)
          let dy : ℚ := ry - (⌊ry⌋ : ℚ)
          let topA := (1 - dx) * ((tl >>> 24 &&& 255 : ℕ) : ℚ) + dx * ((tr >>> 24 &&& 255 : ℕ) : ℚ)
          let topR := (1 - dx) * ((tl >>> 16 &&& 255 : ℕ) : ℚ) + dx * ((tr >>> 16 &&& 255 : ℕ) : ℚ)
          let topG := (1 - dx) * ((tl >>> 8 &&& 255 : ℕ) : ℚ) + dx * ((tr >>> 8 &&& 255 : ℕ) : ℚ)
          let topB := (1 - dx) * ((tl >>> 0 &&& 255 : ℕ) : ℚ) + dx * ((tr >>> 0 &&& 255 : ℕ) : ℚ)
          let botA := (1 - dx) * ((bl >>> 24 &&& 255 : ℕ) : ℚ) + dx * ((br >>> 24 &&& 255 : ℕ) : ℚ)
          let botR := (1 - dx) * ((bl >>> 16 &&& 255 : ℕ) : ℚ) + dx * ((br >>> 16 &&& 255 : ℕ) : ℚ)
          let botG := (1 - dx) * ((bl >>> 8 &&& 255 : ℕ) : ℚ) + dx * ((br >>> 8 &&& 255 : ℕ) : ℚ)
          let botB := (1 - dx) * ((bl >>> 0 &&& 255 : ℕ) : ℚ) + dx * ((br >>> 0 &&& 255 : ℕ) : ℚ)
          let a := (1 - dy) * topA + dy * botA
          let r := (1 - dy) * topR + dy * botR
          let g := (1 - dy) * topG + dy * botG
          let b := (1 - dy) * topB + dy * botB
          let color := (round r).toNat <<< 24 ||| (round g).toNat <<< 16
            ||| (round b).toNat <<< 8 ||| (round a).toNat
          applyColor color 0
      else 0 }

/-- The cyclic byte permutation `rotateBitmap` applies to every sampled
pixel: the source reads channel `k` of the input from bit `8k` but writes
the four interpolated values back one byte position rotated (its variable
names assume alpha at the top byte while the rest of the program keeps
alpha in the low byte). -/
def byteRotate (v : ℕ) : ℕ :=
  v / 2 ^ 16 % 256 * 2 ^ 24 + v / 2 ^ 8 % 256 * 2 ^ 16 + v % 256 * 2 ^ 8 + v / 2 ^ 24 % 256

/-- A concrete 3x3 bitmap exercising both a border pixel and the centre. -/
def bmC5 : Bitmap :=
  ⟨3, 3, fun i => if i = 0 then 0x55667788 else if i = 4 then 0x11223344 else 0⟩

/-- A concrete 2x2 bitmap with four distinct pixels. -/
def bmC9 : Bitmap := ⟨2, 2, fun i => 0x10203040 + i⟩


/-! ## The camera and the scroll compositor: `drawBackground`
(main.c, lines 46-52, 119-120, 607-647)

The C loop runs `y` over `[minY, minY + DISPLAY_PH)` and `x` over
`[minX, minX + DISPLAY_PW)` with `minX = (int)cam.pixelX`,
`minY = (int)cam.pixelY`, writing the display pixel
`(y - minY) * DISPLAY_PW + (x - minX)` on each iteration; the model
computes display index `i` directly from `x = minX + i % DISPLAY_PW`,
`y = minY + i / DISPLAY_PW`.  Buffer reads use `Int` index arithmetic as
the source does; the final conversion to the buffer's flat `Nat` index is
`Int.toNat` (every read the claims concern has a nonnegative index).
-/

structure Camera where
  tileX : Int
  tileY : Int
  pixelX : ℚ
  pixelY : ℚ
  destTileX : Int
  destTileY : Int
  accelX : ℚ
  accelY : ℚ
  velocityX : ℚ
  velocityY : ℚ

structure GState where
  cam : Camera
  bgBufferOld : Bitmap
  bgBufferNew : Bitmap
  display : Nat → Nat

def drawBackground (g : GState) : GState :=
  let minX : Int := ratTrunc g.cam.pixelX
  let minY : Int := ratTrunc g.cam.pixelY
  if g.cam.tileX ≠ g.cam.destTileX ∨ g.cam.tileY ≠ g.cam.destTileY then
    { g with display := fun i =>
        if i < DISPLAY_PW * DISPLAY_PH then
          let x : Int := minX + ((i % DISPLAY_PW : ℕ) : Int)
          let y : Int := minY + ((i / DISPLAY_PW : ℕ) : Int)
          if x < 0 then
            g.bgBufferNew.data ((y * (DISPLAY_PW : Int) + (x + (SCROLL_PW : Int))).toNat)
          else if x ≥ (DISPLAY_PW : Int) then
            g.bgBufferNew.data ((y * (DISPLAY_PW : Int) + (x - (SCROLL_PW : Int))).toNat)
          else if y < 0 then
            g.bgBufferNew.data (((y + (SCROLL_PH : Int)) * (DISPLAY_PW : Int) + x).toNat)
          else if y ≥ (DISPLAY_PH : Int) then
            g.bgBufferNew.data (((y - (SCROLL_PH : Int)) * (DISPLAY_PW : Int) + x).toNat)
          else
            g.bgBufferOld.data ((y * (DISPLAY_PW : Int) + x).toNat)
        else g.display i }
  else
    { g with display := fun i =>
        if i < DISPLAY_PW * DISPLAY_PH then g.bgBufferNew.data i else g.display i }

/-- A concrete game state mid-scroll on the x axis, with
`pixelOffset.x = -SCROLL_PW/2` and distinguishable buffer contents. -/
def gC8 : GState :=
  { cam := { tileX := 0, tileY := 0, pixelX := -360, pixelY := 0,
             destTileX := 15, destTileY := 0, accelX := 0, accelY := 0,
             velocityX := 0, velocityY := 0 },
    bgBufferOld := ⟨960, 540, fun i => 3⟩,
    bgBufferNew := ⟨960, 540, fun i => 7⟩,
    display := fun i => 0 }


/-! ## The tile world model: `initMap` and `borderCollide`
(main.c, lines 41-44, 122, 127-147, 445-491)

`initMap` performs a biased random walk, recording each newly visited
distinct `(x, y)` (a linear scan over the tiles recorded so far) until
`MAPLENGTH` tiles are collected, then sorts the array by `flatCoord`
(`qsort` with `tileCompare`).  `rand()` is modelled by a stream
`s : Nat -> Nat` of its return values, consumed in call order, and the
unbounded `while` loop by a fuel parameter: `initMapRun s fuel = some arr`
states that the loop exited (having collected `MAPLENGTH` tiles) within
`fuel` iterations.  `qsort` is modelled by `mergeSort` with the
`tileCompare` order: `qsort`'s order among equal keys is unspecified, and
every property below depends only on the output being a sorted permutation
of the recorded tiles.

`borderCollide` runs the C library `bsearch` (binary search over
`MAPLENGTH` records, comparator `tileCompare`, i.e. `flatCoord`
subtraction) for the key `y * MAPWIDTH + x` and returns 0 ("no collide",
walkable) when a record is found, 1 otherwise.
-/

structure Tile where
  x : Int
  y : Int
  flatCoord : Int
deriving DecidableEq

def tileDefault : Tile := ⟨0, 0, 0⟩

/-- `tileCompare` sorts ascending by `flatCoord`; this is the resulting
"less or equal" test. -/
def tileLe (a b : Tile) : Bool := decide (a.flatCoord ≤ b.flatCoord)

/-- The bounds of `initMap` (`mapMinX` etc., main.c lines 448-451). -/
def mapMaxX : Int := MAPWIDTH / 2
def mapMinX : Int := -(MAPWIDTH / 2)
def mapMaxY : Int := MAPHEIGHT / 2
def mapMinY : Int := -(MAPHEIGHT / 2)

/-- The duplicate scan of `initMap` (`for (Tile *p = tileArray; p < tile; ++p)`). -/
def isRepeat : List Tile → Int → Int → Bool
  | [], _, _ => false
  | t :: ts, x, y => if t.x = x ∧ t.y = y then true else isRepeat ts x y

/-- The loop state of `initMap`: current position, the tiles recorded so
far (in recording order), their count (the `tile` cursor), the iteration
counter `i`, the number of `rand()` calls made so far (`k`, indexing the
stream), and the current bias direction `r2`. -/
structure WalkState where
  x : Int
  y : Int
  tiles : List Tile
  count : Nat
  i : Nat
  k : Nat
  r2 : Nat

/-- One iteration of the `initMap` loop body. -/
def walkStep (s : Nat → Nat) (st : WalkState) : WalkState :=
  let rep := isRepeat st.tiles st.x st.y
  let tiles := if rep then st.tiles
    else st.tiles ++ [⟨st.x, st.y, st.y * MAPWIDTH + st.x⟩]
  let count := if rep then st.count else st.count + 1
  let r2 := if st.i % 20 = 0 then s st.k % 4 else st.r2
  let k := if st.i % 20 = 0 then st.k + 1 else st.k
  let r1 := s k % 5
  let p : Int × Int :=
    if r1 = 0 ∨ (r1 = 4 ∧ r2 = 0) then (st.x + 1, st.y)
    else if r1 = 1 ∨ (r1 = 4 ∧ r2 = 1) then (st.x - 1, st.y)
    else if r1 = 2 ∨ (r1 = 4 ∧ r2 = 2) then (st.x, st.y + 1)
    else if r1 = 3 ∨ (r1 = 4 ∧ r2 = 3) then (st.x, st.y - 1)
    else (st.x, st.y)
  let x1 := if p.1 > mapMaxX then mapMaxX else p.1
  let y1 := if p.2 > mapMaxY then mapMaxY else p.2
  let x2 := if x1 < mapMinX then mapMaxX else x1
  let y2 := if y1 < mapMinY then mapMaxY else y1
  ⟨x2, y2, tiles, count, st.i + 1, k + 1, r2⟩

/-- The `while (tile - tileArray < MAPLENGTH)` loop followed by `qsort`,
with a fuel bound on the number of iterations. -/
def walkGo (s : Nat → Nat) : Nat → WalkState → Option (List Tile)
  | 0, st =>
    if st.count ≥ MAPLENGTH then some (st.tiles.mergeSort tileLe) else none
  | fuel + 1, st =>
    if st.count ≥ MAPLENGTH then some (st.tiles.mergeSort tileLe)
    else walkGo s fuel (walkStep s st)

def initMapState : WalkState := ⟨0, 0, [], 0, 0, 0, 0⟩

def initMapRun (s : Nat → Nat) (fuel : Nat) : Option (List Tile) :=
  walkGo s fuel initMapState

/-- The glibc `bsearch` over `arr` restricted to `[lo, hi)`, comparator
`tileCompare(key, probe) = key.flatCoord - probe.flatCoord`.  The interval
shrinks every round, so any `fuel > hi - lo` suffices. -/
def bsearchGo (key : Int) (arr : List Tile) : Nat → Nat → Nat → Bool
  | 0, _, _ => false
  | fuel + 1, lo, hi =>
    if lo < hi then
      let mid := (lo + hi) / 2
      let c := key - (arr.getD mid tileDefault).flatCoord
      if c < 0 then bsearchGo key arr fuel lo mid
      else if 0 < c then bsearchGo key arr fuel (mid + 1) hi
      else true
    else false

/-- `borderCollide(x, y)`: 0 when the key `y * MAPWIDTH + x` is found in
the `MAPLENGTH`-entry sorted array, 1 otherwise. -/
def borderCollide (arr : List Tile) (x y : Int) : Nat :=
  if bsearchGo (y * MAPWIDTH + x) arr (MAPLENGTH + 1) 0 MAPLENGTH then 0 else 1

/-- Consistency of one generated tile: the stored key matches the
coordinates and the coordinates lie in the clamped walk range. -/
def tileConsistent (t : Tile) : Prop :=
  t.flatCoord = t.y * MAPWIDTH + t.x ∧
  mapMinX ≤ t.x ∧ t.x ≤ mapMaxX ∧ mapMinY ≤ t.y ∧ t.y ≤ mapMaxY

/-- The invariant claim C6 states for the generated array. -/
def MapInvariant (arr : List Tile) : Prop :=
  arr.length = MAPLENGTH ∧
  arr.Pairwise (fun a b => ¬(a.x = b.x ∧ a.y = b.y)) ∧
  arr.Pairwise (fun a b => a.flatCoord ≤ b.flatCoord) ∧
  ∀ t ∈ arr, tileConsistent t

/-- The invariant maintained across `initMap` loop iterations. -/
def WalkInv (st : WalkState) : Prop :=
  st.count = st.tiles.length ∧ st.count ≤ MAPLENGTH ∧
  st.tiles.Pairwise (fun a b => ¬(a.x = b.x ∧ a.y = b.y)) ∧
  (∀ t ∈ st.tiles, tileConsistent t) ∧
  mapMinX ≤ st.x ∧ st.x ≤ mapMaxX ∧ mapMinY ≤ st.y ∧ st.y ≤ mapMaxY

/-! ### A concrete completing stream for the generator

`snake` drives the walk right from `(0,0)` to `(1000,0)`, one step down,
then left to `(2,1)`: 2000 distinct tiles in 2000 iterations, never
clamped.  Iteration `i` draws `r1 = snakeR1 i`; the stream layout accounts
for the extra `r2` draw every 20 iterations. -/

def snakeR1 (i : Nat) : Nat := if i < 1000 then 0 else if i = 1000 then 2 else 1

def snake (n : Nat) : Nat :=
  if n % 21 = 0 then 0 else snakeR1 (20 * (n / 21) + (n % 21 - 1))

/-- Tiles recorded after the first `n` iterations of the `snake` walk
(the first row, left to right). -/
def tilesA : Nat → List Tile
  | 0 => []
  | n + 1 => tilesA n ++ [⟨(n : Int), 0, (n : Int)⟩]

/-- Tiles recorded once the walk is on the second row: all of `tilesA
1001` followed by `m` tiles of row 1, right to left. -/
def tilesB : Nat → List Tile
  | 0 => tilesA 1001
  | m + 1 => tilesB m ++ [⟨1000 - (m : Int), 1, 3000 - (m : Int)⟩]

/-- Stream positions consumed before iteration `n` of the `snake` walk. -/
def kfun (n : Nat) : Nat := n + (n + 19) / 20

/-- Closed form of the walk state before iteration `n` (valid for
`n ≤ 2000`). -/
def stateF (n : Nat) : WalkState :=
  if n ≤ 1000 then ⟨(n : Int), 0, tilesA n, n, n, kfun n, 0⟩
  else ⟨2001 - (n : Int), 1, tilesB (n - 1001), n, n, kfun n, 0⟩

/-- The tile array generated by `initMap` under the `snake` stream. -/
def sortedSnakeMap : List Tile := (tilesB 999).mergeSort tileLe


theorem ratTrunc_of_nonneg {q : ℚ} (h : 0 ≤ q) : ratTrunc q = ⌊q⌋ := by
  simp [ratTrunc, h]

theorem ratTrunc_intCast (z : ℤ) : ratTrunc (z : ℚ) = z := by
  rcases le_or_lt 0 (z : ℚ) with h | h
  · rw [ratTrunc_of_nonneg h, Int.floor_intCast]
  · have : ¬ (0 : ℚ) ≤ (z : ℚ) := not_le.mpr h
    simp only [ratTrunc, this, if_false]
    rw [show (-(z : ℚ)) = ((-z : ℤ) : ℚ) by push_cast; ring, Int.floor_intCast]
    ring

theorem ratTrunc_natCast (n : ℕ) : ratTrunc (n : ℚ) = n := by
  have := ratTrunc_intCast (n : ℤ)
  simpa using this

/-! ## Bit-level helpers

The packed colors are 32-bit values; the source extracts channels with
`>> k & 0xFF` and reassembles them with `r << 24 | g << 16 | b << 8 | a`.
The lemmas below normalise those operations to `/ 2^k % 256` arithmetic.
-/

theorem and255_eq_mod (x : ℕ) : x &&& 255 = x % 256 := by
  have h := Nat.and_pow_two_sub_one_eq_mod x 8
  norm_num at h
  exact h

theorem testBit_false_of_lt {b : ℕ} {i j : ℕ} (hb : b < 2 ^ i) (hij : i ≤ j) :
    b.testBit j = false := by
  apply Nat.testBit_lt_two_pow
  exact lt_of_lt_of_le hb (Nat.pow_le_pow_right (by norm_num) hij)

theorem lor_two_pow_add (i a b : ℕ) (h : b < 2 ^ i) :
    (2 ^ i * a) ||| b = 2 ^ i * a + b := by
  apply Nat.eq_of_testBit_eq
  intro j
  rw [Nat.testBit_lor, Nat.testBit_mul_pow_two_add a h j]
  rcases lt_or_le j i with hj | hj
  · have : (2 ^ i * a).testBit j = false := by
      have : 2 ^ i * a = a <<< i := by rw [Nat.shiftLeft_eq]; ring
      rw [this, Nat.testBit_shiftLeft]
      simp [Nat.not_le.mpr hj]
    simp [this, hj]
  · have hb : b.testBit j = false := testBit_false_of_lt h hj
    have : (2 ^ i * a).testBit j = a.testBit (j - i) := by
      have h2 : 2 ^ i * a = a <<< i := by rw [Nat.shiftLeft_eq]; ring
      rw [h2, Nat.testBit_shiftLeft]
      simp [hj]
    simp [this, hb, Nat.not_lt.mpr hj]

theorem assembleBytes (r g b a : ℕ) (hr : r < 256) (hg : g < 256)
    (hb : b < 256) (ha : a < 256) :
    r <<< 24 ||| g <<< 16 ||| b <<< 8 ||| a =
      r * 2 ^ 24 + g * 2 ^ 16 + b * 2 ^ 8 + a := by
  have e8 : b <<< 8 = 2 ^ 8 * b := by rw [Nat.shiftLeft_eq]; ring
  have e16 : g <<< 16 = 2 ^ 16 * g := by rw [Nat.shiftLeft_eq]; ring
  have e24 : r <<< 24 = 2 ^ 24 * r := by rw [Nat.shiftLeft_eq]; ring
  rw [Nat.lor_assoc, Nat.lor_assoc, e8, e16, e24]
  rw [lor_two_pow_add 8 b a (by omega)]
  rw [lor_two_pow_add 16 g (2 ^ 8 * b + a) (by norm_num; omega)]
  rw [lor_two_pow_add 24 r (2 ^ 16 * g + (2 ^ 8 * b + a)) (by norm_num; omega)]
  ring

theorem shiftRight_and255 (x k : ℕ) : x >>> k &&& 255 = x / 2 ^ k % 256 := by
  rw [and255_eq_mod, Nat.shiftRight_eq_div_pow]

/-- One blended channel, computed exactly as `applyColor` does, equals the
integer `((255 - alpha) * d + alpha * s) / 255` (floor division). -/
theorem blendChan (al d s : ℕ) (hal : al < 256) :
    (ratTrunc ((1 - (al : ℚ) / 255) * (d : ℚ) + (al : ℚ) / 255 * (s : ℚ))).toNat =
      ((255 - al) * d + al * s) / 255 := by
  have hle : al ≤ 255 := by omega
  have hcast : (1 - (al : ℚ) / 255) * (d : ℚ) + (al : ℚ) / 255 * (s : ℚ)
      = (((255 - al) * d + al * s : ℕ) : ℚ) / 255 := by
    push_cast [hle]
    field_simp
    try ring
  have hnn : (0 : ℚ) ≤ (((255 - al) * d + al * s : ℕ) : ℚ) / 255 := by
    positivity
  rw [hcast, ratTrunc_of_nonneg hnn]
  have hz : ((((255 - al) * d + al * s : ℕ) : ℚ)) = ((((255 - al) * d + al * s : ℕ) : ℤ) : ℚ) := by
    push_cast
    ring
  have h255 : (255 : ℚ) = ((255 : ℕ) : ℚ) := by norm_num
  rw [hz, h255, Rat.floor_intCast_div_natCast]
  rw [show (((255 - al) * d + al * s : ℕ) : ℤ) / ((255 : ℕ) : ℤ)
      = ((((255 - al) * d + al * s) / 255 : ℕ) : ℤ) by
    rw [Int.natCast_div]]
  exact Int.toNat_natCast _

theorem blendChan_lt (al d s : ℕ) (hal : al < 256) (hd : d < 256) (hs : s < 256) :
    ((255 - al) * d + al * s) / 255 < 256 := by
  have h1 : (255 - al) * d ≤ (255 - al) * 255 := Nat.mul_le_mul (le_refl _) (by omega)
  have h2 : al * s ≤ al * 255 := Nat.mul_le_mul (le_refl _) (by omega)
  have h3 : (255 - al) * 255 + al * 255 = (255 - al + al) * 255 := by ring
  have h4 : (255 - al + al) * 255 ≤ 255 * 255 := Nat.mul_le_mul (by omega) (le_refl _)
  have h5 : (255 - al) * d + al * s ≤ 255 * 255 :=
    le_trans (Nat.add_le_add h1 h2) (le_trans (le_of_eq h3) h4)
  have h6 := Nat.div_le_div_right (c := 255) h5
  norm_num at h6
  omega

/-- Closed arithmetic form of `applyColor`: each output channel is the
truncated linear blend, and the output alpha byte is the source's. -/
theorem applyColor_eq (src dest : ℕ) :
    applyColor src dest =
      (((255 - src % 256) * (dest / 2 ^ 24 % 256) + src % 256 * (src / 2 ^ 24 % 256)) / 255) * 2 ^ 24
      + (((255 - src % 256) * (dest / 2 ^ 16 % 256) + src % 256 * (src / 2 ^ 16 % 256)) / 255) * 2 ^ 16
      + (((255 - src % 256) * (dest / 2 ^ 8 % 256) + src % 256 * (src / 2 ^ 8 % 256)) / 255) * 2 ^ 8
      + src % 256 := by
  unfold applyColor
  simp only [and255_eq_mod, Nat.shiftRight_eq_div_pow, Nat.cast_one]
  rw [blendChan (src % 256) (dest / 2 ^ 24 % 256) (src / 2 ^ 24 % 256) (Nat.mod_lt _ (by norm_num)),
      blendChan (src % 256) (dest / 2 ^ 16 % 256) (src / 2 ^ 16 % 256) (Nat.mod_lt _ (by norm_num)),
      blendChan (src % 256) (dest / 2 ^ 8 % 256) (src / 2 ^ 8 % 256) (Nat.mod_lt _ (by norm_num))]
  exact assembleBytes _ _ _ _
    (blendChan_lt _ _ _ (Nat.mod_lt _ (by norm_num)) (Nat.mod_lt _ (by norm_num)) (Nat.mod_lt _ (by norm_num)))
    (blendChan_lt _ _ _ (Nat.mod_lt _ (by norm_num)) (Nat.mod_lt _ (by norm_num)) (Nat.mod_lt _ (by norm_num)))
    (blendChan_lt _ _ _ (Nat.mod_lt _ (by norm_num)) (Nat.mod_lt _ (by norm_num)) (Nat.mod_lt _ (by norm_num)))
    (Nat.mod_lt _ (by norm_num))


/-! ## Claims C3 and C4: properties of the blending primitive -/

/-- Claim C3, counterexample: the spec says each channel is rounded to the
nearest integer, but `applyColor` truncates the float blend toward zero.
With source `0x01000080` (red channel 1, alpha 128) over destination 0 the
exact red blend is `128/255 = 0.50196`, which the code truncates to 0 while
the spec's rounding yields 1. -/
theorem c3_blend_round_cex :
    applyColor 0x01000080 0 = 0x00000080 ∧
    applyColorSpecRound 0x01000080 0 = 0x01000080 ∧
    applyColor 0x01000080 0 ≠ applyColorSpecRound 0x01000080 0 := by
  have h1 : applyColor 0x01000080 0 = 0x00000080 := by
    unfold applyColor
    simp only [and255_eq_mod, Nat.shiftRight_eq_div_pow]
    norm_num [ratTrunc]
  have h2 : applyColorSpecRound 0x01000080 0 = 0x01000080 := by
    unfold applyColorSpecRound
    simp only [and255_eq_mod, Nat.shiftRight_eq_div_pow]
    norm_num [round_eq]
    decide
  refine ⟨h1, h2, by rw [h1, h2]; decide⟩

/-- Claim C3 (amended): the blend truncates each channel toward zero (the
C `(int)` cast) - it does not round to nearest - and the alpha byte of the
result is exactly `alpha(src)` regardless of the destination's prior alpha
(that byte never passes through a float).  The truncated-channel closed
form is stated on a zero destination, where the single-precision
computation is exact: each result channel is `alpha(src) * src_ch / 255`
in integer division.  On general nonzero destinations binary32 rounding
can push a channel one below the exact form, so no full-domain closed
form is claimed. -/
theorem c3_blend_truncated_amended (src dest : ℕ) :
    applyColor src dest % 256 = src % 256 ∧
    applyColor src 0 =
      src % 256 * (src / 2 ^ 24 % 256) / 255 * 2 ^ 24
      + src % 256 * (src / 2 ^ 16 % 256) / 255 * 2 ^ 16
      + src % 256 * (src / 2 ^ 8 % 256) / 255 * 2 ^ 8
      + src % 256 := by
  constructor
  · rw [applyColor_eq src dest]
    omega
  · rw [applyColor_eq src 0]
    norm_num

/-- Claim C4, counterexample: blending a fully transparent source does not
leave the destination entirely unchanged - the result's alpha byte is
overwritten with the source's alpha 0, so `0x11223344` becomes
`0x11223300`. -/
theorem c4_alpha0_cex :
    applyColor 0 0x11223344 = 0x11223300 ∧
    applyColor 0 0x11223344 ≠ 0x11223344 := by
  have h1 : applyColor 0 0x11223344 = 0x11223300 := by
    unfold applyColor
    simp only [and255_eq_mod, Nat.shiftRight_eq_div_pow]
    norm_num [ratTrunc]
    decide
  refine ⟨h1, by rw [h1]; decide⟩

/-- Claim C4 (amended): with `alpha(src) = 0` the blend preserves the
destination's R, G, B channels exactly but sets the result's alpha byte to
0 (so the destination is wholly unchanged only if its alpha was already 0);
with `alpha(src) = 255` the result equals the source exactly in all four
channels. -/
theorem c4_blend_extremes :
    (∀ src dest : ℕ, dest < 2 ^ 32 → src % 256 = 0 →
      applyColor src dest = dest / 256 * 256) ∧
    (∀ src dest : ℕ, src < 2 ^ 32 → src % 256 = 255 →
      applyColor src dest = src) := by
  constructor
  · intro src dest hd h0
    rw [applyColor_eq, h0]
    norm_num
    omega
  · intro src dest hs h255
    rw [applyColor_eq, h255]
    norm_num
    omega

/-- Witness for C4: both halves instantiated at concrete colors. -/
theorem c4_blend_extremes_witness :
    ((0 : ℕ) % 256 = 0 ∧ (0x11223344 : ℕ) < 2 ^ 32 ∧
      applyColor 0 0x55667788 = 0x55667788 / 256 * 256) ∧
    ((0xaabbccff : ℕ) % 256 = 255 ∧ (0xaabbccff : ℕ) < 2 ^ 32 ∧
      applyColor 0xaabbccff 0x11223344 = 0xaabbccff) := by
  refine ⟨⟨by decide, by decide, ?_⟩, ⟨by decide, by decide, ?_⟩⟩
  · exact c4_blend_extremes.1 0 0x55667788 (by decide) (by decide)
  · exact c4_blend_extremes.2 0xaabbccff 0x11223344 (by decide) (by decide)

/-! ## Claims C2 and C7: the ripple pool -/

theorem animateRippleSlot_empty : animateRippleSlot emptyRipple = (emptyRipple, []) := rfl

theorem animateRippleSlot_c2slot0 (x y : Int) (n : Nat) :
    animateRippleSlot (c2slot0 x y n) = (c2slot0 x y (n + 1), if n = 26 then [0] else []) := by
  rcases Nat.lt_trichotomy n 26 with hA | hB | hC
  · have hmin : min n 27 = n := by omega
    have hmin2 : min (n + 1) 27 = n + 1 := by omega
    have hcond : ¬ ((20 : ℚ) + ((n : ℕ) : ℚ) + 1 ≥ (((100 - 5) / 2 : ℕ) : ℚ)) := by
      have h47 : ((100 - 5) / 2 : ℕ) = 47 := by norm_num
      rw [h47]
      push_cast
      have : (n : ℚ) < 26 := by exact_mod_cast hA
      linarith
    simp only [animateRippleSlot, c2slot0, hmin, hmin2]
    rw [if_pos (by simp; omega), if_neg hcond, if_neg (by omega : ¬ n = 26)]
    simp only [Prod.mk.injEq, RippleR.mk.injEq, true_and, and_true]
    refine ⟨by push_cast; ring, by push_cast; ring, by simp only [decide_eq_decide]; omega⟩
  · subst hB
    simp only [animateRippleSlot, c2slot0]
    norm_num
  · have hmin : min n 27 = 27 := by omega
    have hmin2 : min (n + 1) 27 = 27 := by omega
    simp only [animateRippleSlot, c2slot0, hmin, hmin2]
    rw [if_neg (by simp; omega)]
    simp only [Prod.mk.injEq, RippleR.mk.injEq, true_and, and_true]
    refine ⟨by simp only [decide_eq_decide]; omega, by rw [if_neg (by omega : ¬ n = 26)]⟩

theorem c2step (x y : Int) (n : Nat) :
    animateRipple (c2state x y n) = c2state x y (n + 1) := by
  have hrep : (List.replicate 4 ([] : List Nat)).flatten = [] := rfl
  simp only [animateRipple, c2state, List.map_cons, List.map_replicate,
    animateRippleSlot_c2slot0, animateRippleSlot_empty, List.flatten_cons, hrep,
    List.append_nil]
  simp only [RippleSys.mk.injEq, true_and, and_true]
  rcases Nat.lt_trichotomy n 26 with h | h | h
  · rw [if_neg (by omega : ¬ n = 26), if_pos (by omega : n < 27),
      if_pos (by omega : n + 1 < 27), List.append_nil]
  · subst h
    norm_num
  · rw [if_neg (by omega : ¬ n = 26), if_neg (by omega : ¬ n < 27),
      if_neg (by omega : ¬ n + 1 < 27), List.append_nil]

theorem c2closed (x y : Int) (n : Nat) :
    iterAnimate n (initRipple x y emptyRippleSys) = c2state x y n := by
  induction n with
  | zero =>
    show initRipple x y emptyRippleSys = c2state x y 0
    simp only [initRipple, emptyRippleSys, c2state, c2slot0, List.replicate_succ,
      List.set_cons_zero]
    norm_num
  | succ n ih =>
    show animateRipple (iterAnimate n (initRipple x y emptyRippleSys)) = c2state x y (n + 1)
    rw [ih, c2step]

/-- Claim C2, counterexample: the deactivation threshold is the integer
division `(100 - 5) / 2 = 47`, not `47.5`; a ripple spawned with radius 20
is already inactive after 27 advance frames (`20 + 27 = 47 >= 47`), while
the claim asserts it stays active on every frame before the 28th. -/
theorem c2_ripple_27_cex :
    ((iterAnimate 27 (initRipple 0 0 emptyRippleSys)).slots.getD 0 emptyRipple).active = false ∧
    ((iterAnimate 26 (initRipple 0 0 emptyRippleSys)).slots.getD 0 emptyRipple).active = true := by
  rw [c2closed, c2closed]
  constructor <;> simp [c2state, c2slot0]

/-- Claim C2 (amended): a ripple spawned with `radius = 20` and advanced by
the fixed `+1.0` per-frame growth becomes inactive (and its bitmap is
released, exactly once) exactly when its radius first reaches
`(100 - 5) / 2 = 47` (integer division), i.e. after exactly 27 advance
frames (`20 + 27 = 47 >= 47`), and it stays active on every earlier
frame. -/
theorem c2_ripple_lifecycle_amended (x y : Int) (n : Nat) :
    (((iterAnimate n (initRipple x y emptyRippleSys)).slots.getD 0 emptyRipple).active
        = decide (n < 27)) ∧
    (((iterAnimate n (initRipple x y emptyRippleSys)).slots.getD 0 emptyRipple).radius
        = 20 + (min n 27 : ℕ)) ∧
    ((iterAnimate n (initRipple x y emptyRippleSys)).freed
        = if n < 27 then [] else [0]) := by
  rw [c2closed]
  refine ⟨by simp [c2state, c2slot0], by simp [c2state, c2slot0], by simp [c2state]⟩

/-- Claim C7: after six spawns from the empty pool there are exactly 5 live
entries, the sixth spawn wrapped the cursor and overwrote slot 0 (its
buffer is now allocation number 5, and the cursor stands at 1) - but the
bitmap previously held by slot 0 (allocation number 0) was never released:
the list of free events is empty, so the code leaks it rather than
releasing it exactly once as the claim requires. -/
theorem c7_pool_six_spawns :
    ((c7pool.slots.filter (fun r => r.active)).length = 5) ∧
    (c7pool.slots.getD 0 emptyRipple).bitmapId = some 5 ∧
    c7pool.rippleIndex = 1 ∧
    c7pool.freed = [] := by
  refine ⟨?_, ?_, ?_, ?_⟩ <;>
    simp [c7pool, initRipple, emptyRippleSys, emptyRipple, List.replicate]

/-! ## Claim C9: scaling by 1.0 is the identity -/

theorem scaleBitmap_dims (bm : Bitmap) (f : ℚ) (hf : 0 ≤ f) :
    (scaleBitmap bm f).width = (⌊(bm.width : ℚ) * f⌋).toNat ∧
    (scaleBitmap bm f).height = (⌊(bm.height : ℚ) * f⌋).toNat := by
  constructor <;>
    simp only [scaleBitmap, ratTrunc_of_nonneg (mul_nonneg (Nat.cast_nonneg _) hf)]

/-- Claim C9: for every bitmap with positive width and height, scaling by
factor 1.0 returns a bitmap with the same width and height whose pixel
array is identical to the input's; and for any nonnegative factor the new
dimensions are `floor(width * factor)` and `floor(height * factor)`. -/
theorem c9_scale_one_id (bm : Bitmap) (hw : 0 < bm.width) (hh : 0 < bm.height) :
    (scaleBitmap bm 1).width = bm.width ∧
    (scaleBitmap bm 1).height = bm.height ∧
    (∀ i, i < bm.width * bm.height → (scaleBitmap bm 1).data i = bm.data i) ∧
    (∀ f : ℚ, 0 ≤ f →
      (scaleBitmap bm f).width = (⌊(bm.width : ℚ) * f⌋).toNat ∧
      (scaleBitmap bm f).height = (⌊(bm.height : ℚ) * f⌋).toNat) := by
  have hwq : ((bm.width : ℚ)) ≠ 0 := Nat.cast_ne_zero.mpr (Nat.pos_iff_ne_zero.mp hw)
  have hhq : ((bm.height : ℚ)) ≠ 0 := Nat.cast_ne_zero.mpr (Nat.pos_iff_ne_zero.mp hh)
  have hw1 : (scaleBitmap bm 1).width = bm.width := by
    simp only [scaleBitmap]
    rw [show (bm.width : ℚ) * 1 = ((bm.width : ℕ) : ℚ) by ring, ratTrunc_natCast,
      Int.toNat_natCast]
  have hh1 : (scaleBitmap bm 1).height = bm.height := by
    simp only [scaleBitmap]
    rw [show (bm.height : ℚ) * 1 = ((bm.height : ℕ) : ℚ) by ring, ratTrunc_natCast,
      Int.toNat_natCast]
  refine ⟨hw1, hh1, ?_, fun f hf => scaleBitmap_dims bm f hf⟩
  intro i hi
  have hW : (ratTrunc ((bm.width : ℚ) * 1)).toNat = bm.width := by
    rw [show (bm.width : ℚ) * 1 = ((bm.width : ℕ) : ℚ) by ring, ratTrunc_natCast,
      Int.toNat_natCast]
  have hH : (ratTrunc ((bm.height : ℚ) * 1)).toNat = bm.height := by
    rw [show (bm.height : ℚ) * 1 = ((bm.height : ℕ) : ℚ) by ring, ratTrunc_natCast,
      Int.toNat_natCast]
  simp only [scaleBitmap, hW, hH]
  rw [if_pos hi]
  rw [show ((bm.height : ℚ) / ((bm.height : ℚ) * 1)) = 1 by field_simp,
    show ((bm.width : ℚ) / ((bm.width : ℚ) * 1)) = 1 by field_simp]
  rw [mul_one, mul_one, ratTrunc_natCast, ratTrunc_natCast, Int.toNat_natCast,
    Int.toNat_natCast]
  rw [show i / bm.width * bm.width + i % bm.width = i from by
    rw [Nat.mul_comm]; exact Nat.div_add_mod i bm.width]

/-- Witness for C9 at a concrete 2x2 bitmap and pixel index 3. -/
theorem c9_scale_one_id_witness :
    0 < bmC9.width ∧ 0 < bmC9.height ∧
    (scaleBitmap bmC9 1).data 3 = bmC9.data 3 := by
  refine ⟨by norm_num [bmC9], by norm_num [bmC9], ?_⟩
  exact (c9_scale_one_id bmC9 (by norm_num [bmC9]) (by norm_num [bmC9])).2.2.1 3
    (by norm_num [bmC9])

/-! ## Claim C5: rotation by angle 0 -/

/-- Pixel-level description of `rotateBitmap` at angle 0 (sine 0, cosine
1): the last column and last row are left at 0, and every other pixel is
the source pixel byte-rotated and then self-blended onto the zero
background. -/
theorem rotateBitmap_zero_pixel (bm : Bitmap) (x y : Nat)
    (hx : x < bm.width) (hy : y < bm.height) :
    (rotateBitmap bm 0 1).data (y * bm.width + x) =
      (if x + 1 = bm.width ∨ y + 1 = bm.height then 0
       else applyColor (byteRotate (bm.data (y * bm.width + x))) 0) := by
  have hw0 : 0 < bm.width := lt_of_le_of_lt (Nat.zero_le x) hx
  have hi : y * bm.width + x < bm.width * bm.height := by
    have h1 : y * bm.width + x < (y + 1) * bm.width := by
      rw [Nat.add_mul, Nat.one_mul]
      omega
    have h2 : (y + 1) * bm.width ≤ bm.height * bm.width := Nat.mul_le_mul_right _ (by omega)
    rw [Nat.mul_comm bm.height bm.width] at h2
    omega
  have hdiv : (y * bm.width + x) / bm.width = y := by
    rw [Nat.add_comm, Nat.add_mul_div_right _ _ hw0, Nat.div_eq_of_lt hx, Nat.zero_add]
  have hmod : (y * bm.width + x) % bm.width = x := by
    rw [Nat.add_comm, Nat.add_mul_mod_self_right, Nat.mod_eq_of_lt hx]
  simp only [rotateBitmap]
  rw [if_pos hi, hdiv, hmod]
  have hrx : ((x : ℚ) - ((bm.width / 2 : ℕ) : ℚ)) * 1 - ((y : ℚ) - ((bm.width / 2 : ℕ) : ℚ)) * 0
      + ((bm.width / 2 : ℕ) : ℚ) = (x : ℚ) := by ring
  have hry : ((x : ℚ) - ((bm.width / 2 : ℕ) : ℚ)) * 0 + ((y : ℚ) - ((bm.height / 2 : ℕ) : ℚ)) * 1
      + ((bm.height / 2 : ℕ) : ℚ) = (y : ℚ) := by ring
  rw [hrx, hry]
  rw [Int.floor_natCast, Int.floor_natCast, Int.ceil_natCast, Int.ceil_natCast]
  by_cases hskip : x + 1 = bm.width ∨ y + 1 = bm.height
  · rw [if_pos ?hsk, if_pos hskip]
    case hsk =>
      rcases hskip with h | h
      · refine Or.inr (Or.inr (Or.inl ?_))
        have : (x : ℚ) + 1 = (bm.width : ℚ) := by exact_mod_cast congrArg (Nat.cast (R := ℚ)) h
        linarith
      · refine Or.inr (Or.inr (Or.inr ?_))
        have : (y : ℚ) + 1 = (bm.height : ℚ) := by exact_mod_cast congrArg (Nat.cast (R := ℚ)) h
        linarith
  · rw [if_neg ?hns, if_neg hskip]
    case hns =>
      push_neg at hskip
      obtain ⟨h1, h2⟩ := hskip
      have hxw : x + 1 < bm.width := by omega
      have hyh : y + 1 < bm.height := by omega
      have c1 : ((x : ℚ)) + 1 < (bm.width : ℚ) := by exact_mod_cast hxw
      have c2 : ((y : ℚ)) + 1 < (bm.height : ℚ) := by exact_mod_cast hyh
      push_neg
      refine ⟨by positivity, by positivity, by linarith, by linarith⟩
    rw [Int.toNat_natCast, Int.toNat_natCast]
    rw [Int.cast_natCast, Int.cast_natCast]
    rw [sub_self, sub_self]
    norm_num
    congr 1
    have hb : ∀ v k : ℕ, v >>> k &&& 255 < 256 := fun v k => by
      rw [and255_eq_mod]; exact Nat.mod_lt _ (by norm_num)
    have hb0 : ∀ v : ℕ, v &&& 255 < 256 := fun v => by
      rw [and255_eq_mod]; exact Nat.mod_lt _ (by norm_num)
    rw [assembleBytes (bm.data (y * bm.width + x) >>> 16 &&& 255)
      (bm.data (y * bm.width + x) >>> 8 &&& 255)
      (bm.data (y * bm.width + x) &&& 255)
      (bm.data (y * bm.width + x) >>> 24 &&& 255)
      (hb _ 16) (hb _ 8) (hb0 _) (hb _ 24)]
    simp only [byteRotate, Nat.shiftRight_eq_div_pow, and255_eq_mod]

/-- Claim C5, counterexample: rotating the concrete 3x3 bitmap `bmC5` by
angle 0 neither zeroes the full one-pixel border (pixel (0,0) is computed,
not skipped, and comes out nonzero) nor preserves the interior (the centre
pixel is byte-rotated and alpha-blended into `0x02030411`, not the
original `0x11223344`). -/
theorem c5_rotate0_cex :
    (rotateBitmap bmC5 0 1).data 0 ≠ 0 ∧
    (rotateBitmap bmC5 0 1).data 4 ≠ bmC5.data 4 := by
  have h0 : (rotateBitmap bmC5 0 1).data 0 = applyColor (byteRotate (bmC5.data 0)) 0 := by
    have h := rotateBitmap_zero_pixel bmC5 0 0 (by norm_num [bmC5]) (by norm_num [bmC5])
    norm_num [bmC5] at h
    simpa [bmC5] using h
  have h4 : (rotateBitmap bmC5 0 1).data 4 = applyColor (byteRotate (bmC5.data 4)) 0 := by
    have h := rotateBitmap_zero_pixel bmC5 1 1 (by norm_num [bmC5]) (by norm_num [bmC5])
    norm_num [bmC5] at h
    simpa [bmC5] using h
  have e0 : bmC5.data 0 = 0x55667788 := by norm_num [bmC5]
  have e4 : bmC5.data 4 = 0x11223344 := by norm_num [bmC5]
  have hbr0 : byteRotate 0x55667788 = 0x66778855 := by decide
  have hbr4 : byteRotate 0x11223344 = 0x22334411 := by decide
  have ha0 : applyColor 0x66778855 0 = 0x22272d55 := by
    rw [applyColor_eq]; decide
  have ha4 : applyColor 0x22334411 0 = 0x02030411 := by
    rw [applyColor_eq]; decide
  constructor
  · rw [h0, e0, hbr0, ha0]
    decide
  · rw [h4, e4, hbr4, ha4]
    decide

/-- Claim C5 (amended): rotating by angle 0 returns a bitmap of the same
dimensions in which every pixel of the last column (`x = width - 1`) and
the last row (`y = height - 1`) is zero, and every other pixel - the left
and top edges included - equals the input pixel with its bytes cyclically
rotated (the source samples channel labels one position off) blended onto
the transparent background by `applyColor`; in general the pixels do not
equal the input's. -/
theorem c5_rotate0_amended (bm : Bitmap) (x y : Nat)
    (hx : x < bm.width) (hy : y < bm.height) :
    (rotateBitmap bm 0 1).width = bm.width ∧
    (rotateBitmap bm 0 1).height = bm.height ∧
    (rotateBitmap bm 0 1).data (y * bm.width + x) =
      (if x + 1 = bm.width ∨ y + 1 = bm.height then 0
       else applyColor (byteRotate (bm.data (y * bm.width + x))) 0) :=
  ⟨rfl, rfl, rotateBitmap_zero_pixel bm x y hx hy⟩

/-- Witness for the amended C5 at the centre pixel of `bmC5`. -/
theorem c5_rotate0_amended_witness :
    (1 < bmC5.width ∧ 1 < bmC5.height) ∧
    (rotateBitmap bmC5 0 1).data 4 =
      applyColor (byteRotate (bmC5.data 4)) 0 := by
  refine ⟨⟨by norm_num [bmC5], by norm_num [bmC5]⟩, ?_⟩
  have h := (c5_rotate0_amended bmC5 1 1 (by norm_num [bmC5]) (by norm_num [bmC5])).2.2
  norm_num [bmC5] at h
  simpa [bmC5] using h

/-! ## Claims C8 and C10: the scroll compositor -/

/-- Claim C8: while the camera is mid-scroll with
`pixelOffset.x = -SCROLL_PW/2` (and no vertical offset), the frame-buffer
pixel whose x coordinate in the old buffer's space is `-1` - frame column
`359` - is read from the "new" buffer at `x = -1 + SCROLL_PW = 719`, not
from the "old" buffer. -/
theorem c8_scroll_wrap_left (g : GState)
    (hmid : g.cam.tileX ≠ g.cam.destTileX ∨ g.cam.tileY ≠ g.cam.destTileY)
    (hpx : g.cam.pixelX = -(((SCROLL_PW / 2 : ℕ) : ℚ)))
    (hpy : g.cam.pixelY = 0)
    (fy : Nat) (hfy : fy < DISPLAY_PH) :
    (drawBackground g).display (fy * DISPLAY_PW + 359) =
      g.bgBufferNew.data (fy * DISPLAY_PW + 719) := by
  have hPW : SCROLL_PW = 720 := rfl
  have hminX : ratTrunc g.cam.pixelX = -360 := by
    rw [hpx, hPW]
    rw [show (-(((720 / 2 : ℕ) : ℚ))) = (((-360 : ℤ) : ℚ)) by norm_num]
    exact ratTrunc_intCast _
  have hminY : ratTrunc g.cam.pixelY = 0 := by
    rw [hpy]
    rw [show ((0 : ℚ)) = (((0 : ℤ) : ℚ)) by norm_num]
    exact ratTrunc_intCast _
  have hfy960 : fy < 540 := by
    have : DISPLAY_PH = 540 := rfl
    omega
  simp only [drawBackground, hminX, hminY]
  rw [if_pos hmid]
  show (if fy * DISPLAY_PW + 359 < DISPLAY_PW * DISPLAY_PH then _ else _) = _
  rw [if_pos (by show fy * 960 + 359 < 960 * 540; omega)]
  have hmod : (fy * DISPLAY_PW + 359) % DISPLAY_PW = 359 := by
    show (fy * 960 + 359) % 960 = 359
    omega
  have hdiv : (fy * DISPLAY_PW + 359) / DISPLAY_PW = fy := by
    show (fy * 960 + 359) / 960 = fy
    omega
  rw [hmod, hdiv]
  rw [if_pos (by show (-360 : Int) + ((359 : ℕ) : Int) < 0; norm_num)]
  congr 1
  show ((0 + ((fy : ℕ) : Int)) * (960 : Int) + (-360 + ((359 : ℕ) : Int) + (720 : Int))).toNat
      = fy * 960 + 719
  omega

/-- Witness for C8 at the concrete state `gC8` and frame row 0. -/
theorem c8_scroll_wrap_left_witness :
    (gC8.cam.tileX ≠ gC8.cam.destTileX ∨ gC8.cam.tileY ≠ gC8.cam.destTileY) ∧
    gC8.cam.pixelX = -(((SCROLL_PW / 2 : ℕ) : ℚ)) ∧
    gC8.cam.pixelY = 0 ∧
    (0 : ℕ) < DISPLAY_PH ∧
    (drawBackground gC8).display 359 = 7 := by
  have h1 : gC8.cam.tileX ≠ gC8.cam.destTileX ∨ gC8.cam.tileY ≠ gC8.cam.destTileY := by
    left
    norm_num [gC8]
  have h2 : gC8.cam.pixelX = -(((SCROLL_PW / 2 : ℕ) : ℚ)) := by
    show (-360 : ℚ) = _
    norm_num [SCROLL_PW, SCROLL_TW, DISPLAY_TW, DISPLAY_PW, TILESIZE]
  have h3 : gC8.cam.pixelY = 0 := rfl
  have h5 := c8_scroll_wrap_left gC8 h1 h2 h3 0 (by norm_num [DISPLAY_PH])
  refine ⟨h1, h2, h3, by norm_num [DISPLAY_PH], ?_⟩
  have : (drawBackground gC8).display (0 * DISPLAY_PW + 359) = gC8.bgBufferNew.data (0 * DISPLAY_PW + 719) := h5
  simpa [gC8] using this

/-- Claim C10: `drawBackground` writes only the display frame buffer - the
two scroll view buffers (`bgBufferOld`, `bgBufferNew`, contents and
dimensions alike) and the camera are unchanged by the call, whether or not
a scroll is in progress. -/
theorem c10_drawBackground_frame (g : GState) :
    (drawBackground g).bgBufferOld = g.bgBufferOld ∧
    (drawBackground g).bgBufferNew = g.bgBufferNew ∧
    (drawBackground g).cam = g.cam := by
  unfold drawBackground
  split_ifs <;> exact ⟨rfl, rfl, rfl⟩

/-! ## Claims C1 and C6: the tile world -/

theorem getD_key_mono (arr : List Tile)
    (hsorted : arr.Pairwise (fun a b => a.flatCoord ≤ b.flatCoord))
    (i j : Nat) (hij : i ≤ j) (hj : j < arr.length) :
    (arr.getD i tileDefault).flatCoord ≤ (arr.getD j tileDefault).flatCoord := by
  rcases Nat.eq_or_lt_of_le hij with h | h
  · subst h
    exact le_refl _
  · have hi : i < arr.length := lt_trans h hj
    rw [List.getD_eq_getElem arr tileDefault hi, List.getD_eq_getElem arr tileDefault hj]
    have := List.pairwise_iff_get.mp hsorted ⟨i, hi⟩ ⟨j, hj⟩ h
    simpa using this

theorem bsearchGo_iff (key : Int) (arr : List Tile)
    (hsorted : arr.Pairwise (fun a b => a.flatCoord ≤ b.flatCoord)) :
    ∀ fuel lo hi, hi ≤ arr.length → hi - lo < fuel →
      (bsearchGo key arr fuel lo hi = true ↔
        ∃ i : Nat, lo ≤ i ∧ i < hi ∧ (arr.getD i tileDefault).flatCoord = key) := by
  intro fuel
  induction fuel with
  | zero =>
    intro lo hi hhi hfuel
    omega
  | succ fuel ih =>
    intro lo hi hhi hfuel
    by_cases hlh : lo < hi
    · have hmidlo : lo ≤ (lo + hi) / 2 := by omega
      have hmidhi : (lo + hi) / 2 < hi := by omega
      simp only [bsearchGo, if_pos hlh]
      rcases lt_trichotomy (key - (arr.getD ((lo + hi) / 2) tileDefault).flatCoord) 0 with hc | hc | hc
      · rw [if_pos hc]
        rw [ih lo ((lo + hi) / 2) (by omega) (by omega)]
        constructor
        · rintro ⟨i, h1, h2, h3⟩
          exact ⟨i, h1, by omega, h3⟩
        · rintro ⟨i, h1, h2, h3⟩
          refine ⟨i, h1, ?_, h3⟩
          by_contra hge
          have hge2 : (lo + hi) / 2 ≤ i := by omega
          have := getD_key_mono arr hsorted ((lo + hi) / 2) i hge2 (by omega)
          omega
      · rw [if_neg (by omega), if_neg (by omega)]
        simp only [true_iff]
        refine ⟨(lo + hi) / 2, hmidlo, hmidhi, by omega⟩
      · rw [if_neg (by omega), if_pos hc]
        rw [ih ((lo + hi) / 2 + 1) hi (by omega) (by omega)]
        constructor
        · rintro ⟨i, h1, h2, h3⟩
          exact ⟨i, by omega, h2, h3⟩
        · rintro ⟨i, h1, h2, h3⟩
          refine ⟨i, ?_, h2, h3⟩
          by_contra hlt
          have hle2 : i ≤ (lo + hi) / 2 := by omega
          have := getD_key_mono arr hsorted i ((lo + hi) / 2) hle2 (by omega)
          omega
    · simp only [bsearchGo, if_neg hlh]
      constructor
      · intro h
        exact absurd h (by simp)
      · rintro ⟨i, h1, h2, h3⟩
        omega

theorem borderCollide_eq_zero_iff (arr : List Tile)
    (hlen : arr.length = MAPLENGTH)
    (hsorted : arr.Pairwise (fun a b => a.flatCoord ≤ b.flatCoord))
    (x y : Int) :
    (borderCollide arr x y = 0 ↔ ∃ t ∈ arr, t.flatCoord = y * MAPWIDTH + x) := by
  have hiff := bsearchGo_iff (y * MAPWIDTH + x) arr hsorted (MAPLENGTH + 1) 0 MAPLENGTH
    (by omega) (by omega)
  unfold borderCollide
  by_cases hb : bsearchGo (y * MAPWIDTH + x) arr (MAPLENGTH + 1) 0 MAPLENGTH = true
  · rw [if_pos hb]
    simp only [true_iff]
    obtain ⟨i, _, hi2, hi3⟩ := hiff.mp hb
    have hilen : i < arr.length := by omega
    refine ⟨arr.getD i tileDefault, ?_, hi3⟩
    rw [List.getD_eq_getElem arr tileDefault hilen]
    exact List.getElem_mem _
  · rw [if_neg hb]
    constructor
    · intro h
      omega
    · rintro ⟨t, ht, hkey⟩
      exfalso
      apply hb
      apply hiff.mpr
      obtain ⟨i, hget⟩ := List.mem_iff_get.mp ht
      have hlt := i.isLt
      refine ⟨i, Nat.zero_le _, by omega, ?_⟩
      rw [List.getD_eq_getElem arr tileDefault (by omega)]
      rw [← hget] at hkey
      simpa using hkey

theorem borderCollide_out_of_range (arr : List Tile)
    (hlen : arr.length = MAPLENGTH)
    (hsorted : arr.Pairwise (fun a b => a.flatCoord ≤ b.flatCoord))
    (hcons : ∀ t ∈ arr, tileConsistent t) :
    borderCollide arr MAPWIDTH MAPHEIGHT = 1 := by
  have hiff := borderCollide_eq_zero_iff arr hlen hsorted MAPWIDTH MAPHEIGHT
  have hno : ¬ ∃ t ∈ arr, t.flatCoord = MAPHEIGHT * MAPWIDTH + MAPWIDTH := by
    rintro ⟨t, ht, hkey⟩
    obtain ⟨hflat, h1, h2, h3, h4⟩ := hcons t ht
    simp only [MAPWIDTH, MAPHEIGHT, mapMinX, mapMaxX, mapMinY, mapMaxY] at hflat h1 h2 h3 h4 hkey
    norm_num at hflat h1 h2 h3 h4 hkey
    omega
  have hne : ¬ borderCollide arr MAPWIDTH MAPHEIGHT = 0 := fun h => hno (hiff.mp h)
  unfold borderCollide at hne ⊢
  by_cases hb : bsearchGo (MAPHEIGHT * MAPWIDTH + MAPWIDTH) arr (MAPLENGTH + 1) 0 MAPLENGTH = true
  · rw [if_pos hb] at hne
    omega
  · rw [if_neg hb]

theorem isRepeat_eq_false_iff (l : List Tile) (x y : Int) :
    isRepeat l x y = false ↔ ∀ t ∈ l, ¬(t.x = x ∧ t.y = y) := by
  induction l with
  | nil => simp [isRepeat]
  | cons t ts ih =>
    by_cases h : t.x = x ∧ t.y = y
    · simp [isRepeat, if_pos h, h]
    · simp only [isRepeat, if_neg h, ih, List.mem_cons]
      constructor
      · rintro hall t' (rfl | ht')
        · exact h
        · exact hall t' ht'
      · intro hall t' ht'
        exact hall t' (Or.inr ht')

theorem clampX_bounds (v : Int) :
    mapMinX ≤ (if (if v > mapMaxX then mapMaxX else v) < mapMinX then mapMaxX
      else if v > mapMaxX then mapMaxX else v) ∧
    (if (if v > mapMaxX then mapMaxX else v) < mapMinX then mapMaxX
      else if v > mapMaxX then mapMaxX else v) ≤ mapMaxX := by
  simp only [mapMinX, mapMaxX, MAPWIDTH]
  constructor <;> split_ifs <;> omega

theorem clampY_bounds (v : Int) :
    mapMinY ≤ (if (if v > mapMaxY then mapMaxY else v) < mapMinY then mapMaxY
      else if v > mapMaxY then mapMaxY else v) ∧
    (if (if v > mapMaxY then mapMaxY else v) < mapMinY then mapMaxY
      else if v > mapMaxY then mapMaxY else v) ≤ mapMaxY := by
  simp only [mapMinY, mapMaxY, MAPHEIGHT]
  constructor <;> split_ifs <;> omega

theorem walkStep_inv (s : Nat → Nat) (st : WalkState)
    (h : WalkInv st) (hc : st.count < MAPLENGTH) :
    WalkInv (walkStep s st) := by
  obtain ⟨h1, h2, h3, h4, hx1, hx2, hy1, hy2⟩ := h
  have hnew : tileConsistent ⟨st.x, st.y, st.y * MAPWIDTH + st.x⟩ :=
    ⟨rfl, hx1, hx2, hy1, hy2⟩
  refine ⟨?_, ?_, ?_, ?_, ?_, ?_, ?_, ?_⟩
  · show (if isRepeat st.tiles st.x st.y then st.count else st.count + 1) =
      (if isRepeat st.tiles st.x st.y then st.tiles
        else st.tiles ++ [⟨st.x, st.y, st.y * MAPWIDTH + st.x⟩]).length
    by_cases hrep : isRepeat st.tiles st.x st.y <;> simp [hrep, h1]
  · show (if isRepeat st.tiles st.x st.y then st.count else st.count + 1) ≤ MAPLENGTH
    by_cases hrep : isRepeat st.tiles st.x st.y <;> simp [hrep] <;> omega
  · show (if isRepeat st.tiles st.x st.y then st.tiles
      else st.tiles ++ [⟨st.x, st.y, st.y * MAPWIDTH + st.x⟩]).Pairwise
        (fun a b => ¬(a.x = b.x ∧ a.y = b.y))
    by_cases hrep : isRepeat st.tiles st.x st.y
    · simpa [hrep] using h3
    · rw [if_neg hrep]
      rw [List.pairwise_append]
      refine ⟨h3, by simp, ?_⟩
      intro a ha b hb
      simp only [List.mem_singleton] at hb
      subst hb
      have := (isRepeat_eq_false_iff st.tiles st.x st.y).mp (by simpa using hrep) a ha
      simpa using this
  · show ∀ t ∈ (if isRepeat st.tiles st.x st.y then st.tiles
      else st.tiles ++ [⟨st.x, st.y, st.y * MAPWIDTH + st.x⟩]), tileConsistent t
    by_cases hrep : isRepeat st.tiles st.x st.y
    · simpa [hrep] using h4
    · rw [if_neg hrep]
      intro t ht
      rcases List.mem_append.mp ht with h | h
      · exact h4 t h
      · simp only [List.mem_singleton] at h
        subst h
        exact hnew
  · exact (clampX_bounds _).1
  · exact (clampX_bounds _).2
  · exact (clampY_bounds _).1
  · exact (clampY_bounds _).2

theorem tileLe_trans : ∀ a b c : Tile,
    tileLe a b = true → tileLe b c = true → tileLe a c = true := by
  intro a b c hab hbc
  simp only [tileLe, decide_eq_true_eq] at *
  omega

theorem tileLe_total : ∀ a b : Tile, (tileLe a b || tileLe b a) = true := by
  intro a b
  simp only [tileLe, Bool.or_eq_true, decide_eq_true_eq]
  omega

theorem mergeSort_invariant (l : List Tile)
    (hlen : l.length = MAPLENGTH)
    (hdist : l.Pairwise (fun a b => ¬(a.x = b.x ∧ a.y = b.y)))
    (hcons : ∀ t ∈ l, tileConsistent t) :
    MapInvariant (l.mergeSort tileLe) := by
  have hperm := List.mergeSort_perm l tileLe
  refine ⟨?_, ?_, ?_, ?_⟩
  · rw [hperm.length_eq, hlen]
  · rw [hperm.pairwise_iff (by intro a b hab; tauto)]
    exact hdist
  · have hs := List.sorted_mergeSort tileLe_trans tileLe_total l
    refine hs.imp ?_
    intro a b hab
    simpa [tileLe] using hab
  · intro t ht
    exact hcons t (hperm.mem_iff.mp ht)

theorem walkGo_sound (s : Nat → Nat) :
    ∀ fuel st arr, WalkInv st → walkGo s fuel st = some arr → MapInvariant arr := by
  intro fuel
  induction fuel with
  | zero =>
    intro st arr hinv hrun
    unfold walkGo at hrun
    by_cases hge : st.count ≥ MAPLENGTH
    · rw [if_pos hge] at hrun
      obtain ⟨h1, h2, h3, h4, -⟩ := hinv
      have hlen : st.tiles.length = MAPLENGTH := by omega
      have := mergeSort_invariant st.tiles hlen h3 h4
      rwa [← Option.some_inj.mp hrun]
    · rw [if_neg hge] at hrun
      exact absurd hrun (by simp)
  | succ fuel ih =>
    intro st arr hinv hrun
    unfold walkGo at hrun
    by_cases hge : st.count ≥ MAPLENGTH
    · rw [if_pos hge] at hrun
      obtain ⟨h1, h2, h3, h4, -⟩ := hinv
      have hlen : st.tiles.length = MAPLENGTH := by omega
      have := mergeSort_invariant st.tiles hlen h3 h4
      rwa [← Option.some_inj.mp hrun]
    · rw [if_neg hge] at hrun
      exact ih (walkStep s st) arr (walkStep_inv s st hinv (by omega)) hrun

theorem initMapState_inv : WalkInv initMapState := by
  refine ⟨rfl, by simp [initMapState, MAPLENGTH], by simp [initMapState],
    by simp [initMapState], ?_, ?_, ?_, ?_⟩ <;>
    simp [initMapState, mapMinX, mapMaxX, mapMinY, mapMaxY, MAPWIDTH, MAPHEIGHT]

theorem initMapRun_sound (s : Nat → Nat) (fuel : Nat) (arr : List Tile)
    (h : initMapRun s fuel = some arr) : MapInvariant arr :=
  walkGo_sound s fuel initMapState arr initMapState_inv h

theorem tilesA_length : ∀ n, (tilesA n).length = n
  | 0 => rfl
  | n + 1 => by simp [tilesA, tilesA_length n]

theorem tilesB_length : ∀ m, (tilesB m).length = 1001 + m
  | 0 => by simp [tilesB, tilesA_length]
  | m + 1 => by simp [tilesB, tilesB_length m]; omega

theorem isRepeat_append (l1 l2 : List Tile) (x y : Int) :
    isRepeat (l1 ++ l2) x y = (isRepeat l1 x y || isRepeat l2 x y) := by
  induction l1 with
  | nil => simp [isRepeat]
  | cons t ts ih =>
    by_cases h : t.x = x ∧ t.y = y
    · simp [isRepeat, if_pos h]
    · simp [isRepeat, if_neg h, ih]

theorem isRepeat_tilesA_ge (n : Nat) (x y : Int) (h : (n : Int) ≤ x) :
    isRepeat (tilesA n) x y = false := by
  induction n with
  | zero => rfl
  | succ n ih =>
    rw [tilesA, isRepeat_append]
    have hx : ¬ ((n : Int) = x ∧ (0 : Int) = y) := by
      push_cast at h
      rintro ⟨rfl, -⟩
      omega
    simp only [isRepeat, if_neg hx]
    have : (n : Int) ≤ x := by push_cast at h ⊢; omega
    simp [ih this]

theorem isRepeat_tilesA_y1 (n : Nat) (x : Int) : isRepeat (tilesA n) x 1 = false := by
  induction n with
  | zero => rfl
  | succ n ih =>
    rw [tilesA, isRepeat_append]
    have hx : ¬ ((n : Int) = x ∧ (0 : Int) = 1) := by rintro ⟨-, h⟩; omega
    simp [isRepeat, if_neg hx, ih]

theorem isRepeat_tilesB (m : Nat) (x : Int) (h : x ≤ 1000 - (m : Int)) :
    isRepeat (tilesB m) x 1 = false := by
  induction m with
  | zero => exact isRepeat_tilesA_y1 1001 x
  | succ m ih =>
    rw [tilesB, isRepeat_append]
    have hne : ¬ ((1000 - (m : Int)) = x) := by
      push_cast at h
      omega
    have hm : x ≤ 1000 - (m : Int) := by push_cast at h ⊢; omega
    simp [isRepeat, hne, ih hm]

theorem snake_k1 (n : Nat) : snake (n + n / 20 + 1) = snakeR1 n := by
  have e : n + n / 20 + 1 = 21 * (n / 20) + (n % 20 + 1) := by omega
  rw [e]
  have h1 : (21 * (n / 20) + (n % 20 + 1)) % 21 = n % 20 + 1 := by omega
  have h2 : (21 * (n / 20) + (n % 20 + 1)) / 21 = n / 20 := by omega
  simp only [snake, h1, h2]
  rw [if_neg (by omega)]
  rw [show 20 * (n / 20) + (n % 20 + 1 - 1) = n from by omega]

theorem snake_r2roll (n : Nat) (h : n % 20 = 0) : snake (kfun n) = 0 := by
  have e : kfun n = 21 * (n / 20) := by unfold kfun; omega
  rw [e]
  simp only [snake]
  rw [if_pos (by omega)]

theorem kfun_k1 (n : Nat) :
    (if n % 20 = 0 then kfun n + 1 else kfun n) = n + n / 20 + 1 := by
  unfold kfun
  split_ifs <;> omega

theorem kfun_succ (n : Nat) : n + n / 20 + 1 + 1 = kfun (n + 1) := by
  unfold kfun
  omega

theorem stateF_count (n : Nat) : (stateF n).count = n := by
  unfold stateF
  split_ifs <;> rfl

theorem walkStep_stateF_A (n : Nat) (hA : n < 1000) :
    walkStep snake (stateF n) = stateF (n + 1) := by
  have h1 : stateF n = ⟨(n : Int), 0, tilesA n, n, n, kfun n, 0⟩ := by
    unfold stateF; rw [if_pos (by omega)]
  have h2 : stateF (n + 1) = ⟨((n + 1 : ℕ) : Int), 0, tilesA (n + 1), n + 1, n + 1, kfun (n + 1), 0⟩ := by
    unfold stateF; rw [if_pos (by omega)]
  rw [h1, h2]
  unfold walkStep
  dsimp only
  rw [isRepeat_tilesA_ge n n 0 (le_refl _)]
  rw [kfun_k1, snake_k1]
  have hr1 : snakeR1 n = 0 := by simp [snakeR1, hA]
  rw [hr1]
  have hr2 : (if n % 20 = 0 then snake (kfun n) % 4 else 0) = 0 := by
    split_ifs with h
    · rw [snake_r2roll n h]
    · rfl
  rw [hr2]
  norm_num
  refine ⟨?_, ?_, ?_, kfun_succ n⟩
  · simp only [mapMaxX, mapMinX, MAPWIDTH]
    split_ifs <;> omega
  · simp only [mapMaxY, mapMinY, MAPHEIGHT]
    split_ifs <;> omega
  · rw [tilesA]

theorem walkStep_stateF_B :
    walkStep snake (stateF 1000) = stateF 1001 := by
  have h1 : stateF 1000 = ⟨(1000 : Int), 0, tilesA 1000, 1000, 1000, kfun 1000, 0⟩ := by
    unfold stateF; rw [if_pos (by omega)]; norm_num
  have h2 : stateF 1001 = ⟨2001 - ((1001 : ℕ) : Int), 1, tilesB (1001 - 1001), 1001, 1001, kfun 1001, 0⟩ := by
    unfold stateF; rw [if_neg (by omega)]
  rw [h1, h2]
  unfold walkStep
  dsimp only
  rw [isRepeat_tilesA_ge 1000 1000 0 (by norm_num)]
  rw [kfun_k1, snake_k1]
  have hr1 : snakeR1 1000 = 2 := by simp [snakeR1]
  rw [hr1]
  have hr2 : (if (1000 : ℕ) % 20 = 0 then snake (kfun 1000) % 4 else 0) = 0 := by
    rw [if_pos (by norm_num), snake_r2roll 1000 (by norm_num)]
  rw [hr2]
  norm_num [mapMaxX, mapMinX, mapMaxY, mapMinY, MAPWIDTH, MAPHEIGHT]
  constructor
  · rw [tilesB]
    conv_rhs => rw [show (1001 : ℕ) = 1000 + 1 from rfl]
    conv_rhs => rw [tilesA]
    norm_num
  · unfold kfun
    norm_num

theorem walkStep_stateF_C (n : Nat) (hC1 : 1000 < n) (hC2 : n < 2000) :
    walkStep snake (stateF n) = stateF (n + 1) := by
  have h1 : stateF n = ⟨2001 - (n : Int), 1, tilesB (n - 1001), n, n, kfun n, 0⟩ := by
    unfold stateF; rw [if_neg (by omega)]
  have h2 : stateF (n + 1) = ⟨2001 - ((n + 1 : ℕ) : Int), 1, tilesB (n + 1 - 1001), n + 1, n + 1, kfun (n + 1), 0⟩ := by
    unfold stateF; rw [if_neg (by omega)]
  rw [h1, h2]
  unfold walkStep
  dsimp only
  rw [isRepeat_tilesB (n - 1001) (2001 - (n : Int)) (by push_cast; omega)]
  rw [kfun_k1, snake_k1]
  have hr1 : snakeR1 n = 1 := by
    unfold snakeR1
    rw [if_neg (by omega), if_neg (by omega)]
  rw [hr1]
  have hr2 : (if n % 20 = 0 then snake (kfun n) % 4 else 0) = 0 := by
    split_ifs with h
    · rw [snake_r2roll n h]
    · rfl
  rw [hr2]
  norm_num
  refine ⟨?_, ?_, ?_, kfun_succ n⟩
  · simp only [mapMaxX, mapMinX, MAPWIDTH]
    split_ifs <;> push_cast <;> omega
  · simp only [mapMaxY, mapMinY, MAPHEIGHT]
    split_ifs <;> omega
  · rw [show n + 1 - 1001 = (n - 1001) + 1 from by omega, tilesB]
    have e1 : (1000 : Int) - ((n - 1001 : ℕ) : Int) = 2001 - (n : Int) := by push_cast; omega
    have e2 : (3000 : Int) - ((n - 1001 : ℕ) : Int) = MAPWIDTH + (2001 - (n : Int)) := by
      simp only [MAPWIDTH]
      push_cast
      omega
    rw [e1, e2]

theorem walkStep_stateF (n : Nat) (hn : n < 2000) :
    walkStep snake (stateF n) = stateF (n + 1) := by
  rcases Nat.lt_trichotomy n 1000 with h | h | h
  · exact walkStep_stateF_A n h
  · subst h
    exact walkStep_stateF_B
  · exact walkStep_stateF_C n h hn

theorem walkGo_step (s : Nat → Nat) (fuel : Nat) (st : WalkState)
    (h : st.count < MAPLENGTH) :
    walkGo s (fuel + 1) st = walkGo s fuel (walkStep s st) := by
  simp only [walkGo]
  rw [if_neg (by omega)]

theorem walkGo_chain : ∀ d n, n + d = 2000 → ∀ extra,
    walkGo snake (d + extra) (stateF n) = walkGo snake extra (stateF 2000) := by
  intro d
  induction d with
  | zero =>
    intro n hn extra
    have : n = 2000 := by omega
    subst this
    rw [Nat.zero_add]
  | succ d ih =>
    intro n hn extra
    have hlt : n < 2000 := by omega
    rw [show d + 1 + extra = (d + extra) + 1 from by omega]
    rw [walkGo_step snake (d + extra) (stateF n)
      (by rw [stateF_count]; simpa [MAPLENGTH] using hlt)]
    rw [walkStep_stateF n hlt]
    exact ih (n + 1) (by omega) extra

theorem initMapRun_snake : initMapRun snake 2100 = some sortedSnakeMap := by
  have h0 : initMapState = stateF 0 := by
    unfold initMapState stateF kfun tilesA
    norm_num
  unfold initMapRun
  rw [h0]
  rw [show (2100 : ℕ) = 2000 + 100 from rfl]
  rw [walkGo_chain 2000 0 (by omega) 100]
  have hc : (stateF 2000).count = 2000 := stateF_count 2000
  have ht : (stateF 2000).tiles = tilesB 999 := by
    unfold stateF
    rw [if_neg (by omega)]
  unfold walkGo
  rw [if_pos (by rw [hc]; simp [MAPLENGTH])]
  rw [ht]
  rfl

theorem sortedSnakeMap_invariant : MapInvariant sortedSnakeMap :=
  initMapRun_sound snake 2100 sortedSnakeMap initMapRun_snake

theorem mem_tilesA (i n : Nat) (h : i < n) :
    (⟨(i : Int), 0, (i : Int)⟩ : Tile) ∈ tilesA n := by
  induction n with
  | zero => omega
  | succ n ih =>
    rw [tilesA]
    rcases Nat.lt_or_ge i n with h2 | h2
    · exact List.mem_append_left _ (ih h2)
    · have : i = n := by omega
      subst this
      exact List.mem_append_right _ (by simp)

theorem tilesA_sub_tilesB (m : Nat) (t : Tile) (h : t ∈ tilesA 1001) : t ∈ tilesB m := by
  induction m with
  | zero => exact h
  | succ m ih => exact List.mem_append_left _ ih

theorem tilesA_mem_y0 (n : Nat) (t : Tile) (h : t ∈ tilesA n) : t.y = 0 := by
  induction n with
  | zero => simp [tilesA] at h
  | succ n ih =>
    rw [tilesA] at h
    rcases List.mem_append.mp h with h2 | h2
    · exact ih h2
    · simp at h2
      rw [h2]

theorem tilesB_mem_row (m : Nat) (t : Tile) (h : t ∈ tilesB m) :
    t.y = 0 ∨ 1000 - (m : Int) + 1 ≤ t.x := by
  induction m with
  | zero => exact Or.inl (tilesA_mem_y0 1001 t h)
  | succ m ih =>
    rw [tilesB] at h
    rcases List.mem_append.mp h with h2 | h2
    · rcases ih h2 with h3 | h3
      · exact Or.inl h3
      · right
        push_cast
        push_cast at h3
        omega
    · simp at h2
      right
      rw [h2]
      push_cast
      omega

/-- Claim C6: whenever world generation completes (the `rand()` stream is
external; the walk is quantified over every stream and the loop's exit is
the hypothesis, witnessed below by the concrete `snake` stream), the tile
array it produces holds exactly `MAPLENGTH` entries with pairwise distinct
`(x, y)` pairs, sorted ascending by key, each entry's stored key
consistent with its coordinates (which lie in the clamp range). -/
theorem c6_initMap_result (s : Nat → Nat) (fuel : Nat) (arr : List Tile)
    (h : initMapRun s fuel = some arr) : MapInvariant arr :=
  initMapRun_sound s fuel arr h

/-- Witness for C6: the `snake` stream completes generation within 2100
iterations and the claim's conclusion holds for its tile array. -/
theorem c6_initMap_result_witness :
    initMapRun snake 2100 = some sortedSnakeMap ∧ MapInvariant sortedSnakeMap :=
  ⟨initMapRun_snake, c6_initMap_result snake 2100 sortedSnakeMap initMapRun_snake⟩

/-- Claim C1 (amended): over any generated tile array (any array with the
generation invariant: `MAPLENGTH` sorted, coordinate-consistent entries),
the query `borderCollide` answers "walkable" (0) exactly when some
recorded tile's key equals `y * MAPWIDTH + x` - which key collisions make
weaker than membership of `(x, y)` itself - and answers "collide" (1) for
every coordinate whose key is outside the recorded key range, in
particular `(MAPWIDTH, MAPHEIGHT)`. -/
theorem c1_isWalkable_amended (arr : List Tile)
    (hlen : arr.length = MAPLENGTH)
    (hsorted : arr.Pairwise (fun a b => a.flatCoord ≤ b.flatCoord))
    (hcons : ∀ t ∈ arr, tileConsistent t) :
    (∀ x y : Int, (borderCollide arr x y = 0 ↔ ∃ t ∈ arr, t.flatCoord = y * MAPWIDTH + x)) ∧
    borderCollide arr MAPWIDTH MAPHEIGHT = 1 :=
  ⟨fun x y => borderCollide_eq_zero_iff arr hlen hsorted x y,
   borderCollide_out_of_range arr hlen hsorted hcons⟩

/-- Witness for the amended C1 on the generated `snake` map: `(0,0)` is
recorded and queries walkable; the far-out-of-range `(MAPWIDTH,
MAPHEIGHT)` queries non-walkable. -/
theorem c1_isWalkable_amended_witness :
    borderCollide sortedSnakeMap 0 0 = 0 ∧
    borderCollide sortedSnakeMap MAPWIDTH MAPHEIGHT = 1 := by
  obtain ⟨hlen, hdist, hsorted, hcons⟩ := sortedSnakeMap_invariant
  have h := c1_isWalkable_amended sortedSnakeMap hlen hsorted hcons
  refine ⟨?_, h.2⟩
  apply (h.1 0 0).mpr
  refine ⟨⟨0, 0, 0⟩, ?_, by simp [MAPWIDTH]⟩
  have hmem : (⟨0, 0, 0⟩ : Tile) ∈ tilesB 999 :=
    tilesA_sub_tilesB 999 _ (by simpa using mem_tilesA 0 1001 (by omega))
  exact ((List.mergeSort_perm (tilesB 999) tileLe).mem_iff).mpr hmem

/-- Claim C1, counterexample: the map generated by the `snake` stream
contains the tile `(1000, 0)` (key `1000`) but no tile `(-1000, 1)`; yet
the query for `(-1000, 1)` - whose key is `1 * MAPWIDTH + (-1000) = 1000`
as well - answers walkable (0).  The answer is therefore not "true exactly
when `(x, y)` is one of the recorded tiles": distinct coordinates can
share a key because the clamped x-range spans 2001 values. -/
theorem c1_isWalkable_cex :
    initMapRun snake 2100 = some sortedSnakeMap ∧
    borderCollide sortedSnakeMap (-1000) 1 = 0 ∧
    sortedSnakeMap.all (fun t => !(decide (t.x = -1000 ∧ t.y = 1))) = true := by
  obtain ⟨hlen, hdist, hsorted, hcons⟩ := sortedSnakeMap_invariant
  refine ⟨initMapRun_snake, ?_, ?_⟩
  · apply (borderCollide_eq_zero_iff sortedSnakeMap hlen hsorted (-1000) 1).mpr
    refine ⟨⟨1000, 0, 1000⟩, ?_, by simp [MAPWIDTH]⟩
    have hmem : (⟨1000, 0, 1000⟩ : Tile) ∈ tilesB 999 :=
      tilesA_sub_tilesB 999 _ (by simpa using mem_tilesA 1000 1001 (by omega))
    exact ((List.mergeSort_perm (tilesB 999) tileLe).mem_iff).mpr hmem
  · rw [List.all_eq_true]
    intro t ht
    have htB : t ∈ tilesB 999 :=
      ((List.mergeSort_perm (tilesB 999) tileLe).mem_iff).mp ht
    have hrow := tilesB_mem_row 999 t htB
    norm_num at hrow
    simp only [Bool.not_eq_true', decide_eq_false_iff_not]
    rintro ⟨hx, hy⟩
    rcases hrow with h0 | h2
    · omega
    · omega

end Kujira
